import Mathlib

/-!
Verification of the `predict` repository's link-classification and
CVE-record pipeline (`predict/cve.py`, `predict/views.py`) against its
natural-language specification.

The embedding works over `List Char` for the string-processing core and
exposes `String`-level wrappers matching the Python functions.  The Python
standard-library helpers that `cve.py` calls (`urllib.parse.urlparse`,
`urllib.parse.parse_qs`, `re` patterns, `str.upper`) are embedded here with
the semantics documented for the Python versions this project targets; the
regular expressions of `cve.py` are translated into deterministic matchers
(each regex here admits no ambiguous backtracking, as argued in comments).
-/

namespace Predict

/-! ## Basic character classes and list utilities -/

/-- Character class `[A-Za-z0-9\-]` of `github_pattern` in `predict/cve.py`. -/
def isSegChar (c : Char) : Bool :=
  c.isAlpha || c.isDigit || c = '-'

/-- Character class `[0-9a-f]` of `github_pattern` in `predict/cve.py`. -/
def isHexLower (c : Char) : Bool :=
  c.isDigit || ('a' ≤ c && c ≤ 'f')

/-- Break a character list at the first character satisfying `p`:
returns the maximal `p`-free front and the remainder (which, when nonempty,
starts with a character satisfying `p`).  Used to embed Python's
`str.find`/greedy character-class scans. -/
def breakCh (p : Char → Bool) : List Char → List Char × List Char
  | [] => ([], [])
  | c :: t =>
    if p c then ([], c :: t)
    else
      let r := breakCh p t
      (c :: r.1, r.2)

/-- Test whether `pat` is an initial segment of `l`
(embeds Python's `str.startswith`). -/
def startsWithL : List Char → List Char → Bool
  | [], _ => true
  | _ :: _, [] => false
  | a :: as, b :: bs => a = b && startsWithL as bs

/-- Test whether `pat` occurs as a contiguous substring of the second list
(embeds Python's `in` on strings, as in `"commit" in query["a"][0]`). -/
def containsSub (pat : List Char) : List Char → Bool
  | [] => startsWithL pat []
  | c :: t => startsWithL pat (c :: t) || containsSub pat t

/-- Split a list at its last `'/'`: returns `(before, after)` with the
slash itself dropped, or `none` when no slash occurs.  Embeds the
`url.rfind('/')` step of `urllib.parse._splitparams`. -/
def splitLastSlash : List Char → Option (List Char × List Char)
  | [] => none
  | c :: t =>
    match splitLastSlash t with
    | some (p, s) => some (c :: p, s)
    | none => if c = '/' then some ([], t) else none

/-! ## Embedding of `urllib.parse.urlparse`

Only the fields `predict/cve.py` reads (`netloc`, `path`, `query`) matter to
the repository, but the splitting order below follows `urllib.parse.urlsplit`
faithfully: scheme, then netloc, then fragment, then query, and finally the
`params` split of `urlparse` on the last path segment. -/

structure ParseResult where
  scheme : String
  netloc : String
  path : String
  params : String
  query : String
  fragment : String
deriving DecidableEq, Repr

/-- Characters allowed in a URL scheme by `urllib.parse`
(`scheme_chars = letters + digits + '+-.'`). -/
def isSchemeChar (c : Char) : Bool :=
  c.isAlpha || c.isDigit || c = '+' || c = '-' || c = '.'

/-- Scheme split of `urllib.parse.urlsplit`: the text before the first `':'`
becomes the (lowercased) scheme when it is nonempty, starts with a letter and
consists of scheme characters; otherwise the input is left whole. -/
def splitScheme (u : List Char) : List Char × List Char :=
  match breakCh (fun c => c = ':') u with
  | (pre, rest) =>
    match rest with
    | [] => ([], u)
    | _ :: t =>
      match pre with
      | [] => ([], u)
      | c0 :: _ =>
        if c0.isAlpha && pre.all isSchemeChar then (pre.map Char.toLower, t)
        else ([], u)

/-- Netloc split of `urllib.parse.urlsplit`: when the remainder starts with
`"//"`, the netloc extends to the next `'/'`, `'?'` or `'#'`. -/
def splitNetloc (u : List Char) : List Char × List Char :=
  match u with
  | '/' :: '/' :: t => breakCh (fun c => c = '/' || c = '?' || c = '#') t
  | _ => ([], u)

/-- Fragment split of `urllib.parse.urlsplit` (at the first `'#'`). -/
def splitFragment (u : List Char) : List Char × List Char :=
  match breakCh (fun c => c = '#') u with
  | (pre, []) => (pre, [])
  | (pre, _ :: t) => (pre, t)

/-- Query split of `urllib.parse.urlsplit` (at the first `'?'`). -/
def splitQuery (u : List Char) : List Char × List Char :=
  match breakCh (fun c => c = '?') u with
  | (pre, []) => (pre, [])
  | (pre, _ :: t) => (pre, t)

/-- Params split of `urllib.parse.urlparse` (`_splitparams`): when the path
contains a `'/'`, the params are what follows the first `';'` occurring in
the last path segment; otherwise what follows the first `';'` anywhere. -/
def splitparams (u : List Char) : List Char × List Char :=
  match splitLastSlash u with
  | some (p, s) =>
    match breakCh (fun c => c = ';') s with
    | (_, []) => (u, [])
    | (s1, _ :: s2) => (p ++ '/' :: s1, s2)
  | none =>
    match breakCh (fun c => c = ';') u with
    | (_, []) => (u, [])
    | (u1, _ :: u2) => (u1, u2)

/-- List-level core of `urllib.parse.urlparse`. -/
def urlparseL (u : List Char) : ParseResult :=
  let s1 := splitScheme u
  let s2 := splitNetloc s1.2
  let s3 := splitFragment s2.2
  let s4 := splitQuery s3.1
  let s5 := splitparams s4.1
  ⟨⟨s1.1⟩, ⟨s2.1⟩, ⟨s5.1⟩, ⟨s5.2⟩, ⟨s4.2⟩, ⟨s3.2⟩⟩

/-- Embedding of `urllib.parse.urlparse` as called by `process_cve` in
`predict/cve.py`. -/
def urlparse (url : String) : ParseResult :=
  urlparseL url.data

/-! ## Embedding of `urllib.parse.parse_qs`

`parse_qs` is embedded as the ordered list of `(name, value)` pairs produced
by `parse_qsl`; the dict view of `parse_qs` is recovered by `qsGet`, which
returns the first value recorded for a key (`query[k][0]` in Python).  The
field separators are `'&'` and `';'`, the documented defaults for the Python
versions this repository targets.  With the default
`keep_blank_values=False`, fields without `'='` and fields whose value is
empty are dropped. -/

/-- Split a query string into fields at `'&'` and `';'` separators. -/
def splitSeps : List Char → List (List Char)
  | [] => [[]]
  | c :: t =>
    if c = '&' || c = ';' then [] :: splitSeps t
    else
      match splitSeps t with
      | [] => [[c]]
      | f :: fs => (c :: f) :: fs

/-- Hexadecimal value of a hex digit character (0 for non-hex input). -/
def hexVal (c : Char) : Nat :=
  if c.isDigit then c.toNat - '0'.toNat
  else if 'a' ≤ c && c ≤ 'f' then c.toNat - 'a'.toNat + 10
  else if 'A' ≤ c && c ≤ 'F' then c.toNat - 'A'.toNat + 10
  else 0

/-- Hex-digit test covering both cases, as accepted by `urllib`'s
percent-escape decoding. -/
def isHexDigit (c : Char) : Bool :=
  c.isDigit || ('a' ≤ c && c ≤ 'f') || ('A' ≤ c && c ≤ 'F')

/-- Percent-and-plus decoding of `urllib.parse.unquote_plus`: `'+'` becomes a
space and `%XX` becomes the character of byte `XX`; a `'%'` not followed by
two hex digits is kept literally.  Escaped bytes are decoded byte-wise (the
claims under verification only involve unescaped ASCII queries). -/
def unquoteList : List Char → List Char
  | [] => []
  | '+' :: t => ' ' :: unquoteList t
  | '%' :: a :: b :: t =>
    if isHexDigit a && isHexDigit b then
      Char.ofNat (16 * hexVal a + hexVal b) :: unquoteList t
    else '%' :: unquoteList (a :: b :: t)
  | c :: t => c :: unquoteList t

/-- Embedding of `urllib.parse.parse_qsl` with the repository-era defaults:
split on `'&'`/`';'`, skip fields without `'='` and fields with an empty
value, unquote names and values. -/
def parseQsl (qs : List Char) : List (String × String) :=
  (splitSeps qs).filterMap fun f =>
    match breakCh (fun c => c = '=') f with
    | (_, []) => none
    | (n, _ :: v) =>
      if v = [] then none
      else some (⟨unquoteList n⟩, ⟨unquoteList v⟩)

/-- Embedding of `urllib.parse.parse_qs` as used in `predict/cve.py`,
kept as the ordered pair list underlying the dict-of-lists. -/
def parse_qs (query : String) : List (String × String) :=
  parseQsl query.data

/-- First value recorded for key `k` (`query[k][0]` on the `parse_qs` dict),
or `none` when the key is absent (`k not in query`). -/
def qsGet (pairs : List (String × String)) (k : String) : Option String :=
  (pairs.find? fun p => p.1 == k).map Prod.snd

/-! ## CVE identifier validation (`predict/cve.py`)

`cve_pattern = re.compile("^CVE-\\d{4}-\\d{4,7}$")`, used through
`cve_pattern.match`.  The matcher below is the deterministic reading of that
regex: `\d{4}` consumes exactly four digits (if a fifth digit follows, the
required `'-'` cannot match and no backtracking can help, since counted
repetitions of a fixed class admit only one width here); `\d{4,7}` is greedy,
and any shorter choice would leave a digit in front of `$`, so only the
maximal digit run can succeed.  Python's `$` also matches just before a
single trailing newline, which the final test reproduces. -/

/-- Embedding of `str.upper` for the ASCII identifiers this repository
handles (`cve_id.upper()` in `get_cve`). -/
def pyUpper (s : String) : String :=
  ⟨s.data.map Char.toUpper⟩

/-- Embedding of `is_valid_cve_id` from `predict/cve.py`:
`cve_pattern.match(cve_id) is not None`. -/
def is_valid_cve_id (s : String) : Bool :=
  match s.data with
  | 'C' :: 'V' :: 'E' :: '-' :: r =>
    match breakCh (fun c => !c.isDigit) r with
    | (d1, rest1) =>
      match rest1 with
      | '-' :: r2 =>
        match breakCh (fun c => !c.isDigit) r2 with
        | (d2, rest2) =>
          d1.length = 4 && 4 ≤ d2.length && d2.length ≤ 7 &&
            (rest2 = [] || rest2 = ['\n'])
      | _ => false
  | _ => false

/-! ## GitHub commit-path matcher (`predict/cve.py`)

`github_pattern = re.compile("\\/?([A-Za-z0-9\\-]+)\\/([A-Za-z0-9\\-]+)\\/commit\\/([0-9a-f]{5,40})\\/?$")`,
used through `github_pattern.match` on `parsed_link.path`.  The matcher below
is the deterministic reading of that regex: the two `+`-repetitions are
greedy over classes that exclude `'/'`, so only the maximal run followed by
the literal `'/'` can succeed; `[0-9a-f]{5,40}` is greedy and any shorter
choice leaves a hex character in front of `\/?$`, so only the maximal hex run
(of length 5 to 40) can succeed; `$` again also matches before a single
trailing newline. -/

/-- Deterministic matcher for `github_pattern`; returns the three capture
groups (owner, repository, commit hash) on success. -/
def githubMatch (path : List Char) : Option (List Char × List Char × List Char) :=
  let l := match path with
    | '/' :: t => t
    | t => t
  match breakCh (fun c => !isSegChar c) l with
  | (o, r1) =>
    if o = [] then none
    else
      match r1 with
      | [] => none
      | c :: r2 =>
        if c = '/' then
          match breakCh (fun c => !isSegChar c) r2 with
          | (rp, r3) =>
            if rp = [] then none
            else if startsWithL ['/', 'c', 'o', 'm', 'm', 'i', 't', '/'] r3 then
              match breakCh (fun c => !isHexLower c) (r3.drop 8) with
              | (h, r4) =>
                if 5 ≤ h.length && h.length ≤ 40 then
                  if r4 = [] || r4 = ['/'] || r4 = ['\n'] || r4 = ['/', '\n'] then
                    some (o, rp, h)
                  else none
                else none
            else none
        else none

/-- Embedding of `is_github_link` from `predict/cve.py`. -/
def is_github_link (p : ParseResult) : Bool :=
  (p.netloc == "github.com" || p.netloc == "www.github.com") &&
    (githubMatch p.path.data).isSome

/-! ## Known-mirror table and git links (`predict/cve.py`) -/

/-- Embedding of the `known_repositories` dict of `predict/cve.py`:
host ↦ (repo_user, repo_name). -/
def known_repositories : List (String × String × String) :=
  [("git.qemu.org", "qemu", "qemu"),
   ("git.openssl.org", "openssl", "openssl"),
   ("git.kernel.org", "torvalds", "linux"),
   ("git.videolan.org", "FFmpeg", "FFmpeg"),
   ("git.libav.org", "libav", "libav"),
   ("libvirt.org", "libvirt", "libvirt")]

/-- Dict lookup `known_repositories[host]`; `none` embeds both
`host not in known_repositories` and the `KeyError` of a failed subscript. -/
def mirrorLookup (host : String) : Option (String × String) :=
  (known_repositories.find? fun e => e.1 == host).map Prod.snd

/-- Embedding of `is_git_link` from `predict/cve.py`: requires query key
`"a"`, then checks membership of the host in `known_repositories` and the
substring `"commit"` inside `query["a"][0]`. -/
def is_git_link (p : ParseResult) : Bool :=
  match qsGet (parse_qs p.query) "a" with
  | none => false
  | some a => (mirrorLookup p.netloc).isSome && containsSub "commit".data a.data

/-! ## Link classification

`process_cve` in `predict/cve.py` dispatches each reference URL through
`is_github_link` / `convert_github_link`, then `is_git_link` /
`convert_git_link`, and otherwise keeps the URL verbatim — this is the
specification's `classify`.  The `flask.url_for("main.info_page", ...)` call
used by both converters resolves a route that is not among the embedded
sources, and the specification (§6) treats URL construction as an injected
routing function; accordingly every function below takes the routing
function `route : cveId → repoUser → repoName → commit → URL` as an explicit
parameter.  A `none` result embeds an uncaught Python exception. -/

/-- Origin of a recognized commit link (specification §3). -/
inductive Origin where
  | GitHubDirect : Origin
  | KnownMirror : Origin
deriving DecidableEq, Repr

/-- Classification result: a recognized commit link carrying its original
URL, canonical URL, repository owner and name, commit hash and origin — or
an opaque link kept verbatim (specification §3). -/
inductive Link where
  | CommitLink (originalURL canonicalURL repoOwner repoName commitHash : String)
      (origin : Origin) : Link
  | OpaqueLink (url : String) : Link
deriving DecidableEq, Repr

/-- Embedding of `convert_github_link` from `predict/cve.py`: re-runs
`github_pattern.match` on the path and routes the three capture groups. -/
def convert_github_link (route : String → String → String → String → String)
    (cve_id : String) (p : ParseResult) : Option String :=
  (githubMatch p.path.data).map fun g => route cve_id ⟨g.1⟩ ⟨g.2.1⟩ ⟨g.2.2⟩

/-- Embedding of `convert_git_link` from `predict/cve.py`: looks up the host
in `known_repositories` and reads `query["h"][0]`; `none` embeds the
`KeyError` raised when either subscript is absent. -/
def convert_git_link (route : String → String → String → String → String)
    (cve_id : String) (p : ParseResult) : Option String :=
  match mirrorLookup p.netloc, qsGet (parse_qs p.query) "h" with
  | some un, some h => some (route cve_id un.1 un.2 h)
  | _, _ => none

/-- Classification of one reference URL, exactly the per-link branch of
`process_cve` in `predict/cve.py` with the converted data retained:
GitHub direct first, then known mirror, else opaque.  `none` embeds an
uncaught exception (`convert_git_link`'s `KeyError`). -/
def classify (route : String → String → String → String → String)
    (cve_id url : String) : Option Link :=
  let p := urlparse url
  if is_github_link p then
    match githubMatch p.path.data with
    | some g =>
      some (Link.CommitLink url (route cve_id ⟨g.1⟩ ⟨g.2.1⟩ ⟨g.2.2⟩)
        ⟨g.1⟩ ⟨g.2.1⟩ ⟨g.2.2⟩ Origin.GitHubDirect)
    | none => none
  else if is_git_link p then
    match mirrorLookup p.netloc, qsGet (parse_qs p.query) "h" with
    | some un, some h =>
      some (Link.CommitLink url (route cve_id un.1 un.2 h) un.1 un.2 h
        Origin.KnownMirror)
    | _, _ => none
  else some (Link.OpaqueLink url)

/-- True exactly when `classify` recognizes the URL as a commit link
(either branch of the chained conditional in `process_cve`). -/
def classifiesCommit (route : String → String → String → String → String)
    (cve_id url : String) : Bool :=
  match classify route cve_id url with
  | some (Link.CommitLink _ _ _ _ _ _) => true
  | _ => false

/-- True exactly when `classify` keeps the URL verbatim as an opaque link
(the `else` branch of the chained conditional in `process_cve`). -/
def classifiesOpaque (route : String → String → String → String → String)
    (cve_id url : String) : Bool :=
  match classify route cve_id url with
  | some (Link.OpaqueLink _) => true
  | _ => false

/-! ## CVE record building (`predict/cve.py`) -/

/-- Raw CVE data as produced by `scrape_cve`: id, description and the list
of reference URLs. -/
structure RawCve where
  id : String
  desc : String
  links : List String
deriving DecidableEq, Repr

/-- Processed CVE entry as returned by `process_cve`: `git_links` holds
`(old link, converted link)` pairs, `normal_links` the remaining URLs. -/
structure CveEntry where
  id : String
  desc : String
  git_links : List (String × String)
  normal_links : List String
deriving DecidableEq, Repr

/-- Loop of `process_cve` over the reference URLs, in input order: commit
links (GitHub direct or known mirror) are appended as
`(old link, converted link)` to `git_links`, everything else to
`normal_links`.  `none` embeds the loop aborting on an uncaught exception. -/
def processLinks (route : String → String → String → String → String)
    (cve_id : String) : List String → Option (List (String × String) × List String)
  | [] => some ([], [])
  | l :: ls =>
    match classify route cve_id l with
    | none => none
    | some (Link.CommitLink _ canon _ _ _ _) =>
      (processLinks route cve_id ls).map fun r => ((l, canon) :: r.1, r.2)
    | some (Link.OpaqueLink _) =>
      (processLinks route cve_id ls).map fun r => (r.1, l :: r.2)

/-- Embedding of `process_cve` from `predict/cve.py`. -/
def process_cve (route : String → String → String → String → String)
    (entry : RawCve) : Option CveEntry :=
  (processLinks route entry.id entry.links).map fun r =>
    ⟨entry.id, entry.desc, r.1, r.2⟩

/-- Result of `get_cve` as observed by its caller: the Python value `None`,
a processed entry, or an uncaught exception escaping the call. -/
inductive GetCveResult where
  | exn : GetCveResult
  | pynone : GetCveResult
  | entry (e : CveEntry) : GetCveResult
deriving DecidableEq, Repr

/-- Embedding of `get_cve` from `predict/cve.py`.  The network fetch
performed by `scrape_cve` is abstracted as the function `fetch`
(specification §6, metadata collaborator): `fetch` returns `none` when the
upstream response is not OK (`scrape_cve` returns `None`) and the decoded
raw entry otherwise.  `get_cve` uppercases the id, validates it, and only
then consults the collaborator. -/
def get_cve (route : String → String → String → String → String)
    (fetch : String → Option RawCve) (cve_id : String) : GetCveResult :=
  let c := pyUpper cve_id
  if is_valid_cve_id c then
    match fetch c with
    | some raw =>
      match process_cve route raw with
      | some e => GetCveResult.entry e
      | none => GetCveResult.exn
    | none => GetCveResult.pynone
  else GetCveResult.pynone

/-! ## Conflict resolution (`predict/views.py`, `predict.conflict_resolution`)

The route `conflict_resolution` in `predict/views.py` drives the consensus
pipeline: `splitByCveId`, `moveUserToFront`, `appendURLs`,
`insertAgreements` and `insertPercentages` live in the module
`predict.conflict_resolution`, which is not among the embedded sources —
only this caller is.  Those five functions are therefore modelled from the
specification (§4.3–§4.4), while the pipeline that composes them follows
`predict/views.py` lines 250–263 exactly: the first entry of each block
(after the move-to-front) is taken as the comparison baseline for every
other entry, unconditionally. -/

/-- Annotation row, with the eight fields in the order of the tuples in
`predict/views.py` (cve id, username, repository name, repository user, fix
commit, fix file, introducing commit, introducing file). -/
structure AnnotationRow where
  cveId : String
  username : String
  repoName : String
  repoUser : String
  fixCommit : String
  fixFile : String
  introCommit : String
  introFile : String
deriving DecidableEq, Repr

/-- Modelled from the spec: `predict.conflict_resolution.splitByCveId` is
not under the embedded sources; §4.3 describes a single-pass stable
grouping — output group order is the first-seen order of each distinct
cve id, and member order within a group is relative input order. -/
def firstSeenKeys (rows : List AnnotationRow) : List String :=
  rows.foldl (fun ks r => if r.cveId ∈ ks then ks else ks ++ [r.cveId]) []

/-- Modelled from the spec: stable multi-map grouping of annotation rows by
cve id, iterated in first-seen key order (§4.3). -/
def splitByCveId (rows : List AnnotationRow) : List (List AnnotationRow) :=
  (firstSeenKeys rows).map fun k => rows.filter fun r => r.cveId == k

/-- Locate the first entry with the given username: returns it together
with the remaining entries in their original relative order. -/
def findFocal : List AnnotationRow → String → Option (AnnotationRow × List AnnotationRow)
  | [], _ => none
  | r :: t, u =>
    if r.username = u then some (r, t)
    else (findFocal t u).map fun f => (f.1, r :: f.2)

/-- Modelled from the spec: `predict.conflict_resolution.moveUserToFront` is
not under the embedded sources; §4.4 stage 1 describes a stable move-to-front
of the entry whose username equals the focal username, leaving the order
unchanged when no such entry exists. -/
def moveUserToFront (block : List AnnotationRow) (user : String) : List AnnotationRow :=
  match findFocal block user with
  | some f => f.1 :: f.2
  | none => block

/-- Consensus entry: an annotation row plus the derived display links and
the optional pairwise-agreement pair `(fixMatches, introMatches)` (§3);
`agreement = none` for entries the pipeline never compared (the block's
first entry). -/
structure ConsensusEntry where
  row : AnnotationRow
  fixLink : String
  introLink : String
  agreement : Option (Bool × Bool)
deriving DecidableEq, Repr

/-- Modelled from the spec: §4.4 stage 3 — the fix halves of two rows agree
when both the fix commit and the fix file coincide. -/
def fixMatches (r focal : AnnotationRow) : Bool :=
  r.fixCommit == focal.fixCommit && r.fixFile == focal.fixFile

/-- Modelled from the spec: §4.4 stage 3, symmetrically over the
introduction fields. -/
def introMatches (r focal : AnnotationRow) : Bool :=
  r.introCommit == focal.introCommit && r.introFile == focal.introFile

/-- Modelled from the spec: `predict.conflict_resolution.appendURLs` is not
under the embedded sources; §4.4 stage 2 derives the fix and intro display
links directly through the injected routing function from the
`(cveId, repoUser, repoName, commit, file)` data carried on the row. -/
def appendURLs (routeB : String → String → String → String → String → String)
    (r : AnnotationRow) : ConsensusEntry :=
  ⟨r, routeB r.cveId r.repoUser r.repoName r.fixCommit r.fixFile,
    routeB r.cveId r.repoUser r.repoName r.introCommit r.introFile, none⟩

/-- Modelled from the spec: `predict.conflict_resolution.insertAgreements`
is not under the embedded sources; §4.4 stage 3 records the pairwise
agreement of an entry against the focal row it is handed. -/
def insertAgreements (e : ConsensusEntry) (focal : AnnotationRow) : ConsensusEntry :=
  { e with agreement := some (fixMatches e.row focal, introMatches e.row focal) }

/-- Modelled from the spec: `predict.conflict_resolution.insertPercentages`
is not under the embedded sources; §4.4 stage 4 defines the block percentage
as `100 * count(compared entries agreeing on both halves) / count(compared
entries)`, and 100 when there is nothing to compare.  The function receives
only the processed block (this is the interface `predict/views.py` uses), in
which exactly the non-first entries carry an agreement pair, so "compared
entries" are those with `agreement ≠ none`; the interface carries no focal
username, so no separate no-focal case can be expressed here. -/
def blockPercentage (entries : List ConsensusEntry) : ℚ :=
  let compared := entries.filter fun e => e.agreement.isSome
  if compared.length = 0 then 100
  else
    100 * ((compared.filter fun e => e.agreement == some (true, true)).length : ℚ) /
      (compared.length : ℚ)

/-- Per-block consensus pipeline of `predict/views.py` lines 253–262: move
the current user's entry to the front, take the (raw) first entry as the
comparison baseline, append display links to every entry, and insert
agreement fields into every entry except the first. -/
def processBlock (routeB : String → String → String → String → String → String)
    (block : List AnnotationRow) (user : String) : List ConsensusEntry :=
  match moveUserToFront block user with
  | [] => []
  | first :: rest =>
    appendURLs routeB first ::
      rest.map fun r => insertAgreements (appendURLs routeB r) first

/-- Full consensus view of the `conflict_resolution` route in
`predict/views.py`: group the rows by cve id, process each block, and pair
it with its agreement percentage. -/
def conflictResolutionView (routeB : String → String → String → String → String → String)
    (rows : List AnnotationRow) (user : String) : List (List ConsensusEntry × ℚ) :=
  (splitByCveId rows).map fun block =>
    let b := processBlock routeB block user
    (b, blockPercentage b)

/-! ## Sample routing functions for concrete instances

The theorems below quantify over the injected routing function; these
concrete instances (following the `info_page` and `blame_page` route shapes
of `predict/views.py`) serve for closed instantiations. -/

/-- Concrete routing function in the shape of the `info_page` route of
`predict/views.py`. -/
def sampleRoute : String → String → String → String → String :=
  fun cveId user name commit =>
    "/cve/" ++ cveId ++ "/info/" ++ user ++ "/" ++ name ++ "/" ++ commit

/-- Concrete routing function in the shape of the `blame_page` route of
`predict/views.py`. -/
def sampleRouteB : String → String → String → String → String → String :=
  fun cveId user name commit file =>
    "/cve/" ++ cveId ++ "/blame/" ++ user ++ "/" ++ name ++ "/" ++ commit ++ "/" ++ file

/-! ## Concrete sample data for closed instances -/

/-- Raw CVE entry whose link list contains a duplicated GitHub commit URL,
a second distinct URL canonicalizing to the same commit (trailing slash),
and a duplicated opaque URL. -/
def dupRaw : RawCve :=
  ⟨"CVE-2014-0160", "d",
   ["https://github.com/foo/bar/commit/abcdef1",
    "https://github.com/foo/bar/commit/abcdef1",
    "https://github.com/foo/bar/commit/abcdef1/",
    "https://example.com/x",
    "https://example.com/x"]⟩

/-- Processed form of `dupRaw` under `sampleRoute`. -/
def dupEntry : CveEntry :=
  ⟨"CVE-2014-0160", "d",
   [("https://github.com/foo/bar/commit/abcdef1",
     "/cve/CVE-2014-0160/info/foo/bar/abcdef1"),
    ("https://github.com/foo/bar/commit/abcdef1",
     "/cve/CVE-2014-0160/info/foo/bar/abcdef1"),
    ("https://github.com/foo/bar/commit/abcdef1/",
     "/cve/CVE-2014-0160/info/foo/bar/abcdef1")],
   ["https://example.com/x", "https://example.com/x"]⟩

/-- Annotation rows of one group whose two members agree with each other;
neither username is `"zoe"`. -/
def rowAlice : AnnotationRow :=
  ⟨"CVE-1234-5678", "alice", "rname", "ruser", "c1", "f1", "c2", "f2"⟩

/-- Second member of the sample group: same fix and intro data as
`rowAlice`, different username. -/
def rowBob : AnnotationRow :=
  ⟨"CVE-1234-5678", "bob", "rname", "ruser", "c1", "f1", "c2", "f2"⟩

/-! # Helper lemmas -/

theorem string_mk_data (s : String) : (⟨s.data⟩ : String) = s := rfl

theorem breakCh_of_all_neg {p : Char → Bool} :
    ∀ {l : List Char}, (∀ c ∈ l, p c = false) → breakCh p l = (l, [])
  | [], _ => rfl
  | c :: t, h => by
    have hc : p c = false := h c (List.mem_cons_self c t)
    have ht := breakCh_of_all_neg (l := t) fun d hd => h d (List.mem_cons_of_mem c hd)
    simp [breakCh, hc, ht]

theorem breakCh_split {p : Char → Bool} {b : Char} (hb : p b = true) :
    ∀ (l₁ l₂ : List Char), (∀ c ∈ l₁, p c = false) →
      breakCh p (l₁ ++ b :: l₂) = (l₁, b :: l₂)
  | [], l₂, _ => by simp [breakCh, hb]
  | c :: t, l₂, h => by
    have hc : p c = false := h c (List.mem_cons_self c t)
    have ht := breakCh_split hb t l₂ fun d hd => h d (List.mem_cons_of_mem c hd)
    simp [breakCh, hc, ht]

theorem startsWithL_self_append : ∀ (pre rest : List Char), startsWithL pre (pre ++ rest) = true
  | [], _ => rfl
  | c :: t, rest => by simp [startsWithL, startsWithL_self_append t rest]

theorem splitLastSlash_of_no_slash :
    ∀ {l : List Char}, (∀ c ∈ l, c ≠ '/') → splitLastSlash l = none
  | [], _ => rfl
  | c :: t, h => by
    have hc : c ≠ '/' := h c (List.mem_cons_self c t)
    have ht := splitLastSlash_of_no_slash (l := t) fun d hd => h d (List.mem_cons_of_mem c hd)
    simp [splitLastSlash, ht, hc]

theorem splitLastSlash_append {b : List Char} (hb : ∀ c ∈ b, c ≠ '/') :
    ∀ (a : List Char), splitLastSlash (a ++ '/' :: b) = some (a, b)
  | [] => by simp [splitLastSlash, splitLastSlash_of_no_slash hb]
  | c :: t => by simp [splitLastSlash, splitLastSlash_append hb t]

theorem splitparams_clean {a b : List Char} (hb : ∀ c ∈ b, c ≠ '/')
    (hbs : ∀ c ∈ b, c ≠ ';') :
    splitparams (a ++ '/' :: b) = (a ++ '/' :: b, []) := by
  have h1 := splitLastSlash_append hb a
  have h2 : breakCh (fun c => c = ';') b = (b, []) :=
    breakCh_of_all_neg fun c hc => by simp [hbs c hc]
  simp [splitparams, h1, h2]

theorem urlparseL_https (host s : List Char)
    (hhost : ∀ c ∈ host, c ≠ '/' ∧ c ≠ '?' ∧ c ≠ '#')
    (hs : ∀ c ∈ s, c ≠ '?' ∧ c ≠ '#') :
    urlparseL
        ('h' :: 't' :: 't' :: 'p' :: 's' :: ':' :: '/' :: '/' :: (host ++ '/' :: s)) =
      ⟨"https", ⟨host⟩, ⟨(splitparams ('/' :: s)).1⟩, ⟨(splitparams ('/' :: s)).2⟩,
        "", ""⟩ := by
  have hscheme :
      splitScheme
          ('h' :: 't' :: 't' :: 'p' :: 's' :: ':' :: '/' :: '/' :: (host ++ '/' :: s)) =
        (['h', 't', 't', 'p', 's'], '/' :: '/' :: (host ++ '/' :: s)) := rfl
  have hnet :
      splitNetloc ('/' :: '/' :: (host ++ '/' :: s)) = (host, '/' :: s) := by
    have := breakCh_split (p := fun c => c = '/' || c = '?' || c = '#')
      (b := '/') (by simp) host s
      (fun c hc => by
        rcases hhost c hc with ⟨h1, h2, h3⟩
        simp [h1, h2, h3])
    simpa [splitNetloc] using this
  have hfrag : splitFragment ('/' :: s) = ('/' :: s, []) := by
    have : breakCh (fun c => c = '#') ('/' :: s) = ('/' :: s, []) :=
      breakCh_of_all_neg fun c hc => by
        rcases List.mem_cons.mp hc with h | h
        · simp [h]
        · simp [(hs c h).2]
    simp [splitFragment, this]
  have hq : splitQuery ('/' :: s) = ('/' :: s, []) := by
    have : breakCh (fun c => c = '?') ('/' :: s) = ('/' :: s, []) :=
      breakCh_of_all_neg fun c hc => by
        rcases List.mem_cons.mp hc with h | h
        · simp [h]
        · simp [(hs c h).1]
    simp [splitQuery, this]
  simp [urlparseL, hscheme, hnet, hfrag, hq]

theorem exists_first_fail {p : Char → Bool} :
    ∀ {l : List Char}, (∃ c ∈ l, p c = false) →
      ∃ l₁ b l₂, l = l₁ ++ b :: l₂ ∧ (∀ c ∈ l₁, p c = true) ∧ p b = false
  | [], h => absurd h (by simp)
  | c :: t, h => by
    cases hc : p c
    · exact ⟨[], c, t, rfl, by simp, hc⟩
    · have hex : ∃ d ∈ t, p d = false := by
        rcases h with ⟨d, hd, hpd⟩
        rcases List.mem_cons.mp hd with rfl | hd
        · rw [hc] at hpd
          exact absurd hpd (by simp)
        · exact ⟨d, hd, hpd⟩
      rcases exists_first_fail hex with ⟨l₁, b, l₂, hdec, hgood, hb⟩
      refine ⟨c :: l₁, b, l₂, by rw [hdec]; rfl, ?_, hb⟩
      intro d hd
      rcases List.mem_cons.mp hd with rfl | hd
      · exact hc
      · exact hgood d hd

theorem githubMatch_ok_gen (o r h t : List Char)
    (ho : o ≠ []) (hoseg : ∀ c ∈ o, isSegChar c = true)
    (hr : r ≠ []) (hrseg : ∀ c ∈ r, isSegChar c = true)
    (h5 : 5 ≤ h.length) (h40 : h.length ≤ 40)
    (ht3 : breakCh (fun c => !isHexLower c) (h ++ t) = (h, t))
    (ht4 : (t = [] || t = ['/'] || t = ['\n'] || t = ['/', '\n']) = true) :
    githubMatch ('/' :: (o ++ '/' ::
        (r ++ '/' :: 'c' :: 'o' :: 'm' :: 'm' :: 'i' :: 't' :: '/' :: (h ++ t)))) = some (o, r, h) := by
  have hbo : ∀ c ∈ o, (!isSegChar c) = false := fun c hc => by simp [hoseg c hc]
  have hbr : ∀ c ∈ r, (!isSegChar c) = false := fun c hc => by simp [hrseg c hc]
  have h1 : breakCh (fun c => !isSegChar c)
      (o ++ '/' :: (r ++ '/' :: 'c' :: 'o' :: 'm' :: 'm' :: 'i' :: 't' :: '/' :: (h ++ t))) =
      (o, '/' :: (r ++ '/' :: 'c' :: 'o' :: 'm' :: 'm' :: 'i' :: 't' :: '/' :: (h ++ t))) :=
    breakCh_split (by decide) _ _ hbo
  have h2 : breakCh (fun c => !isSegChar c)
      (r ++ '/' :: 'c' :: 'o' :: 'm' :: 'm' :: 'i' :: 't' :: '/' :: (h ++ t)) =
      (r, '/' :: 'c' :: 'o' :: 'm' :: 'm' :: 'i' :: 't' :: '/' :: (h ++ t)) :=
    breakCh_split (by decide) _ _ hbr
  have h4 : startsWithL ['/', 'c', 'o', 'm', 'm', 'i', 't', '/']
      ('/' :: 'c' :: 'o' :: 'm' :: 'm' :: 'i' :: 't' :: '/' :: (h ++ t)) = true :=
    startsWithL_self_append ['/', 'c', 'o', 'm', 'm', 'i', 't', '/'] (h ++ t)
  simp only [githubMatch, h1, h2, h4, List.drop_succ_cons, List.drop_zero]
  simp [ho, hr, h5, h40, ht3, ht4]

theorem githubMatch_none_badseg (o r : List Char) (tail : List Char)
    (hono : ∀ c ∈ o, c ≠ '/') (hrno : ∀ c ∈ r, c ≠ '/')
    (hbad : (∃ c ∈ o, isSegChar c = false) ∨
      ((∀ c ∈ o, isSegChar c = true) ∧ ∃ c ∈ r, isSegChar c = false)) :
    githubMatch ('/' :: (o ++ '/' :: (r ++ '/' :: tail))) = none := by
  rcases hbad with hbad | ⟨hog, hbad⟩
  · rcases exists_first_fail hbad with ⟨l₁, b, l₂, hdec, hgood, hb⟩
    have hbmem : b ∈ o := by
      rw [hdec]
      exact List.mem_append.mpr (Or.inr (List.mem_cons_self b l₂))
    have hbslash : b ≠ '/' := hono b hbmem
    have h1 : breakCh (fun c => !isSegChar c)
        (o ++ '/' :: (r ++ '/' :: tail)) =
        (l₁, b :: (l₂ ++ '/' :: (r ++ '/' :: tail))) := by
      rw [hdec, List.append_assoc, List.cons_append]
      exact breakCh_split (by simp [hb]) _ _ (fun c hc => by simp [hgood c hc])
    by_cases hl1 : l₁ = []
    · simp [githubMatch, h1, hl1]
    · simp [githubMatch, h1, hl1, hbslash]
  · have h1 : breakCh (fun c => !isSegChar c)
        (o ++ '/' :: (r ++ '/' :: tail)) = (o, '/' :: (r ++ '/' :: tail)) :=
      breakCh_split (by decide) _ _ (fun c hc => by simp [hog c hc])
    by_cases ho : o = []
    · have h0 : breakCh (fun c => !isSegChar c) ('/' :: (r ++ '/' :: tail)) =
          ([], '/' :: (r ++ '/' :: tail)) :=
        breakCh_split (p := fun c => !isSegChar c) (b := '/') (by decide)
          [] (r ++ '/' :: tail) (by simp)
      subst ho
      simp [githubMatch, h0]
    · rcases exists_first_fail hbad with ⟨l₁, b, l₂, hdec, hgood, hb⟩
      have hbmem : b ∈ r := by
        rw [hdec]
        exact List.mem_append.mpr (Or.inr (List.mem_cons_self b l₂))
      have hbslash : b ≠ '/' := hrno b hbmem
      have h2 : breakCh (fun c => !isSegChar c) (r ++ '/' :: tail) =
          (l₁, b :: (l₂ ++ '/' :: tail)) := by
        rw [hdec, List.append_assoc, List.cons_append]
        exact breakCh_split (by simp [hb]) _ _ (fun c hc => by simp [hgood c hc])
      by_cases hl1 : l₁ = []
      · simp [githubMatch, h1, h2, ho, hl1]
      · have hsw : startsWithL ['/', 'c', 'o', 'm', 'm', 'i', 't', '/']
            (b :: (l₂ ++ '/' :: tail)) = false := by
          have hne : ¬('/' = b) := fun e => hbslash e.symm
          simp [startsWithL, hne]
        simp [githubMatch, h1, h2, ho, hl1, hsw]

theorem seg_not_special {c : Char} (hx : isSegChar c = true) :
    c ≠ '/' ∧ c ≠ '?' ∧ c ≠ '#' := by
  refine ⟨?_, ?_, ?_⟩ <;> rintro rfl <;> exact absurd hx (by decide)

theorem hex_not_special {c : Char} (hx : isHexLower c = true) :
    c ≠ '/' ∧ c ≠ '?' ∧ c ≠ '#' ∧ c ≠ ';' := by
  refine ⟨?_, ?_, ?_, ?_⟩ <;> rintro rfl <;> exact absurd hx (by decide)

theorem path_chars_no_query_frag (o r h tl : List Char)
    (hoc : ∀ c ∈ o, c ≠ '?' ∧ c ≠ '#')
    (hrc : ∀ c ∈ r, c ≠ '?' ∧ c ≠ '#')
    (hhc : ∀ c ∈ h, c ≠ '?' ∧ c ≠ '#')
    (htl : ∀ c ∈ tl, c ≠ '?' ∧ c ≠ '#') :
    ∀ c ∈ (o ++ '/' :: (r ++ '/' :: 'c' :: 'o' :: 'm' :: 'm' :: 'i' :: 't' :: '/' :: (h ++ tl))),
      c ≠ '?' ∧ c ≠ '#' := by
  intro c hc
  rcases List.mem_append.mp hc with h1 | h1
  · exact hoc c h1
  rcases List.mem_cons.mp h1 with rfl | h1
  · exact ⟨by decide, by decide⟩
  rcases List.mem_append.mp h1 with h2 | h2
  · exact hrc c h2
  rcases List.mem_cons.mp h2 with rfl | h2
  · exact ⟨by decide, by decide⟩
  rcases List.mem_cons.mp h2 with rfl | h2
  · exact ⟨by decide, by decide⟩
  rcases List.mem_cons.mp h2 with rfl | h2
  · exact ⟨by decide, by decide⟩
  rcases List.mem_cons.mp h2 with rfl | h2
  · exact ⟨by decide, by decide⟩
  rcases List.mem_cons.mp h2 with rfl | h2
  · exact ⟨by decide, by decide⟩
  rcases List.mem_cons.mp h2 with rfl | h2
  · exact ⟨by decide, by decide⟩
  rcases List.mem_cons.mp h2 with rfl | h2
  · exact ⟨by decide, by decide⟩
  rcases List.mem_cons.mp h2 with rfl | h2
  · exact ⟨by decide, by decide⟩
  rcases List.mem_append.mp h2 with h3 | h3
  · exact hhc c h3
  · exact htl c h3

/-! # Claims -/

/-- C1.  The claim says classification is total and never fatal, and that a
known-mirror URL whose query lacks key `a` or key `h` falls through to the
opaque rule.  The code violates the `h` half: `is_git_link` accepts a
known-mirror URL whose query has `a=commit` but no `h`, and
`convert_git_link` then evaluates `query["h"][0]`, raising `KeyError` (here:
`classify` returns `none`, and record building aborts).  The missing-`a`
half does hold, as the last two conjuncts show. -/
theorem classification_keyerror_on_missing_h :
    is_git_link (urlparse "https://git.kernel.org/?a=commit") = true ∧
    classify sampleRoute "CVE-2014-0160" "https://git.kernel.org/?a=commit" = none ∧
    process_cve sampleRoute
        ⟨"CVE-2014-0160", "d", ["https://git.kernel.org/?a=commit"]⟩ = none ∧
    classify sampleRoute "CVE-2014-0160" "https://git.kernel.org/?h=deadbeef" =
      some (Link.OpaqueLink "https://git.kernel.org/?h=deadbeef") ∧
    classify sampleRoute "CVE-2014-0160" "https://git.kernel.org/" =
      some (Link.OpaqueLink "https://git.kernel.org/") := by
  refine ⟨rfl, rfl, rfl, rfl, rfl⟩

/-- C2.  Classifying `https://git.kernel.org/?a=commit;h=deadbeef` produces
a commit link with owner `torvalds`, repository `linux`, hash `deadbeef`
and origin `KnownMirror`, for every injected routing function and cve id. -/
theorem kernel_mirror_example (route : String → String → String → String → String)
    (cid : String) :
    classify route cid "https://git.kernel.org/?a=commit;h=deadbeef" =
      some (Link.CommitLink "https://git.kernel.org/?a=commit;h=deadbeef"
        (route cid "torvalds" "linux" "deadbeef")
        "torvalds" "linux" "deadbeef" Origin.KnownMirror) := rfl

theorem github_direct_aux
    (route : String → String → String → String → String) (cid host o r h t : String)
    (hnb : (host == "github.com" || host == "www.github.com") = true)
    (hhc : ∀ c ∈ host.data, c ≠ '/' ∧ c ≠ '?' ∧ c ≠ '#')
    (htd : t.data = [] ∨ t.data = ['/'])
    (ho : o.data ≠ []) (hoseg : ∀ c ∈ o.data, isSegChar c = true)
    (hr : r.data ≠ []) (hrseg : ∀ c ∈ r.data, isSegChar c = true)
    (hhx : ∀ c ∈ h.data, isHexLower c = true)
    (h5 : 5 ≤ h.data.length) (h40 : h.data.length ≤ 40) :
    classify route cid ("https://" ++ host ++ "/" ++ o ++ "/" ++ r ++ "/commit/" ++ h ++ t) =
      some (Link.CommitLink ("https://" ++ host ++ "/" ++ o ++ "/" ++ r ++ "/commit/" ++ h ++ t)
        (route cid o r h) o r h Origin.GitHubDirect) := by
  set s : List Char := o.data ++ '/' ::
    (r.data ++ '/' :: 'c' :: 'o' :: 'm' :: 'm' :: 'i' :: 't' :: '/' :: (h.data ++ t.data)) with hsdef
  have ht3 : breakCh (fun c => !isHexLower c) (h.data ++ t.data) = (h.data, t.data) := by
    rcases htd with he | he
    · rw [he, List.append_nil]
      simpa using breakCh_of_all_neg (l := h.data) (fun c hc => by simp [hhx c hc])
    · rw [he]
      exact breakCh_split (by decide) _ _ (fun c hc => by simp [hhx c hc])
  have ht4 : (t.data = [] || t.data = ['/'] || t.data = ['\n'] ||
      t.data = ['/', '\n']) = true := by
    rcases htd with he | he <;> simp [he]
  have hmatch : githubMatch ('/' :: s) = some (o.data, r.data, h.data) :=
    githubMatch_ok_gen o.data r.data h.data t.data ho hoseg hr hrseg h5 h40 ht3 ht4
  have hschars : ∀ c ∈ s, c ≠ '?' ∧ c ≠ '#' := by
    rw [hsdef]
    exact path_chars_no_query_frag o.data r.data h.data t.data
      (fun c hc => ⟨(seg_not_special (hoseg c hc)).2.1, (seg_not_special (hoseg c hc)).2.2⟩)
      (fun c hc => ⟨(seg_not_special (hrseg c hc)).2.1, (seg_not_special (hrseg c hc)).2.2⟩)
      (fun c hc => ⟨(hex_not_special (hhx c hc)).2.1, (hex_not_special (hhx c hc)).2.2.1⟩)
      (fun c hc => by
        rcases htd with he | he
        · rw [he] at hc
          exact absurd hc (by simp)
        · rw [he] at hc
          rcases List.mem_cons.mp hc with rfl | hc
          · exact ⟨by decide, by decide⟩
          · exact absurd hc (by simp))
  have hsp : splitparams ('/' :: s) = ('/' :: s, []) := by
    rcases htd with he | he
    · have hshape : '/' :: s =
          ('/' :: (o.data ++ '/' :: (r.data ++ ['/', 'c', 'o', 'm', 'm', 'i', 't']))) ++
            '/' :: h.data := by
        simp [hsdef, he, List.append_assoc]
      rw [hshape]
      exact splitparams_clean (fun c hc => (hex_not_special (hhx c hc)).1)
        (fun c hc => (hex_not_special (hhx c hc)).2.2.2)
    · have hshape : '/' :: s =
          ('/' :: (o.data ++ '/' ::
            (r.data ++ '/' :: 'c' :: 'o' :: 'm' :: 'm' :: 'i' :: 't' :: '/' :: h.data))) ++ '/' :: [] := by
        simp [hsdef, he, List.append_assoc]
      rw [hshape]
      exact splitparams_clean (fun c hc => absurd hc (by simp))
        (fun c hc => absurd hc (by simp))
  have hd : ("https://" ++ host ++ "/" ++ o ++ "/" ++ r ++ "/commit/" ++ h ++ t).data =
      'h' :: 't' :: 't' :: 'p' :: 's' :: ':' :: '/' :: '/' :: (host.data ++ '/' :: s) := by
    simp [hsdef, String.data_append, List.append_assoc]
  have h6 := urlparseL_https host.data s hhc hschars
  rw [hsp] at h6
  have hup : urlparse ("https://" ++ host ++ "/" ++ o ++ "/" ++ r ++ "/commit/" ++ h ++ t) =
      ⟨"https", ⟨host.data⟩, ⟨'/' :: s⟩, ⟨[]⟩, "", ""⟩ := by
    rw [urlparse, hd]
    exact h6
  simp [classify, hup, is_github_link, string_mk_data, hnb, hmatch]

/-- C3.  Every URL whose host is `github.com` or `www.github.com` and whose
path is `/{owner}/{repo}/commit/{hash}`, with owner and repo nonempty
segments over `[A-Za-z0-9-]`, hash 5–40 lowercase hex characters and an
optional trailing slash, classifies as a commit link carrying that owner,
repo and hash, with origin GitHubDirect. -/
theorem github_direct_classified
    (route : String → String → String → String → String) (cid host o r h t : String)
    (hhost : host = "github.com" ∨ host = "www.github.com")
    (htail : t = "" ∨ t = "/")
    (ho : o.data ≠ []) (hoseg : ∀ c ∈ o.data, isSegChar c = true)
    (hr : r.data ≠ []) (hrseg : ∀ c ∈ r.data, isSegChar c = true)
    (hhx : ∀ c ∈ h.data, isHexLower c = true)
    (h5 : 5 ≤ h.data.length) (h40 : h.data.length ≤ 40) :
    classify route cid ("https://" ++ host ++ "/" ++ o ++ "/" ++ r ++ "/commit/" ++ h ++ t) =
      some (Link.CommitLink ("https://" ++ host ++ "/" ++ o ++ "/" ++ r ++ "/commit/" ++ h ++ t)
        (route cid o r h) o r h Origin.GitHubDirect) := by
  rcases hhost with rfl | rfl <;> rcases htail with rfl | rfl <;>
    exact github_direct_aux route cid _ o r h _ (by decide) (by decide) (by decide)
      ho hoseg hr hrseg hhx h5 h40

/-- Witness for C3 at the specification's concrete example
`https://github.com/foo/bar/commit/abcdef1`. -/
theorem github_direct_classified_witness :
    classify sampleRoute "CVE-2024-0001" "https://github.com/foo/bar/commit/abcdef1" =
      some (Link.CommitLink "https://github.com/foo/bar/commit/abcdef1"
        (sampleRoute "CVE-2024-0001" "foo" "bar" "abcdef1") "foo" "bar" "abcdef1"
        Origin.GitHubDirect) :=
  github_direct_classified sampleRoute "CVE-2024-0001" "github.com" "foo" "bar" "abcdef1" ""
    (Or.inl rfl) (Or.inl rfl) (by decide) (by decide) (by decide) (by decide) (by decide)
    (by decide) (by decide)

/-- C10.  The GitHub-direct rule only recognizes owner and repo path
segments over `[A-Za-z0-9-]`: a `github.com` commit URL whose owner or repo
segment contains any character outside that class (while remaining a
genuine path segment, i.e. free of `/`, `?` and `#`) fails the rule and is
kept verbatim as an opaque link. -/
theorem github_badchar_opaque
    (route : String → String → String → String → String) (cid o r h : String)
    (hoc : ∀ c ∈ o.data, c ≠ '/' ∧ c ≠ '?' ∧ c ≠ '#')
    (hrc : ∀ c ∈ r.data, c ≠ '/' ∧ c ≠ '?' ∧ c ≠ '#')
    (hhx : ∀ c ∈ h.data, isHexLower c = true)
    (hbad : (∃ c ∈ o.data, isSegChar c = false) ∨ ∃ c ∈ r.data, isSegChar c = false) :
    classify route cid ("https://github.com/" ++ o ++ "/" ++ r ++ "/commit/" ++ h) =
      some (Link.OpaqueLink ("https://github.com/" ++ o ++ "/" ++ r ++ "/commit/" ++ h)) := by
  set s : List Char := o.data ++ '/' ::
    (r.data ++ '/' :: 'c' :: 'o' :: 'm' :: 'm' :: 'i' :: 't' :: '/' :: h.data) with hsdef
  have hbad' : (∃ c ∈ o.data, isSegChar c = false) ∨
      ((∀ c ∈ o.data, isSegChar c = true) ∧ ∃ c ∈ r.data, isSegChar c = false) := by
    rcases hbad with hb | hb
    · exact Or.inl hb
    · by_cases hog : ∀ c ∈ o.data, isSegChar c = true
      · exact Or.inr ⟨hog, hb⟩
      · push_neg at hog
        rcases hog with ⟨c, hc, hcf⟩
        exact Or.inl ⟨c, hc, by simpa using hcf⟩
  have hmatch : githubMatch ('/' :: s) = none := by
    rw [hsdef]
    exact githubMatch_none_badseg o.data r.data ('c' :: 'o' :: 'm' :: 'm' :: 'i' :: 't' :: '/' :: h.data)
      (fun c hc => (hoc c hc).1) (fun c hc => (hrc c hc).1) hbad'
  have hschars : ∀ c ∈ s, c ≠ '?' ∧ c ≠ '#' := by
    rw [hsdef]
    have := path_chars_no_query_frag o.data r.data h.data []
      (fun c hc => ⟨(hoc c hc).2.1, (hoc c hc).2.2⟩)
      (fun c hc => ⟨(hrc c hc).2.1, (hrc c hc).2.2⟩)
      (fun c hc => ⟨(hex_not_special (hhx c hc)).2.1, (hex_not_special (hhx c hc)).2.2.1⟩)
      (fun c hc => absurd hc (by simp))
    simpa using this
  have hsp : splitparams ('/' :: s) = ('/' :: s, []) := by
    have hshape : '/' :: s =
        ('/' :: (o.data ++ '/' :: (r.data ++ ['/', 'c', 'o', 'm', 'm', 'i', 't']))) ++
          '/' :: h.data := by
      simp [hsdef, List.append_assoc]
    rw [hshape]
    exact splitparams_clean (fun c hc => (hex_not_special (hhx c hc)).1)
      (fun c hc => (hex_not_special (hhx c hc)).2.2.2)
  have hd : ("https://github.com/" ++ o ++ "/" ++ r ++ "/commit/" ++ h).data =
      'h' :: 't' :: 't' :: 'p' :: 's' :: ':' :: '/' :: '/' :: ("github.com".data ++ '/' :: s) := by
    simp [hsdef, String.data_append, List.append_assoc]
  have h6 := urlparseL_https "github.com".data s (by decide) hschars
  rw [hsp] at h6
  have hup : urlparse ("https://github.com/" ++ o ++ "/" ++ r ++ "/commit/" ++ h) =
      ⟨"https", ⟨"github.com".data⟩, ⟨'/' :: s⟩, ⟨[]⟩, "", ""⟩ := by
    rw [urlparse, hd]
    exact h6
  have hgh : is_github_link ⟨"https", ⟨"github.com".data⟩, ⟨'/' :: s⟩, ⟨[]⟩, "", ""⟩ = false := by
    simp [is_github_link, hmatch]
  have hgit : is_git_link ⟨"https", ⟨"github.com".data⟩, ⟨'/' :: s⟩, ⟨[]⟩, "", ""⟩ = false := rfl
  simp [classify, hup, hgh, hgit]

/-- Witness for C10 at a concrete owner containing a dot:
`https://github.com/foo.bar/baz/commit/abcdef1` stays opaque. -/
theorem github_badchar_opaque_witness :
    classify sampleRoute "CVE-2024-0001" "https://github.com/foo.bar/baz/commit/abcdef1" =
      some (Link.OpaqueLink "https://github.com/foo.bar/baz/commit/abcdef1") :=
  github_badchar_opaque sampleRoute "CVE-2024-0001" "foo.bar" "baz" "abcdef1"
    (by decide) (by decide) (by decide) (Or.inl (by decide))

/-- C5.  For every cve id whose uppercase normalization fails the
`CVE-\d{4}-\d{4,7}` pattern, `get_cve` returns the failure value without
consulting the metadata collaborator: the result is `pynone` for every
fetch function, and in particular independent of the fetch function. -/
theorem invalid_id_rejected_before_fetch
    (route : String → String → String → String → String) (cveId : String)
    (h : is_valid_cve_id (pyUpper cveId) = false) :
    (∀ fetch, get_cve route fetch cveId = GetCveResult.pynone) ∧
    (∀ f g, get_cve route f cveId = get_cve route g cveId) := by
  constructor
  · intro fetch
    simp [get_cve, h]
  · intro f g
    simp [get_cve, h]

/-- Witness for C5 at the concrete malformed id `"CVE-21-12345"`. -/
theorem invalid_id_rejected_before_fetch_witness :
    get_cve sampleRoute (fun _ => none) "CVE-21-12345" = GetCveResult.pynone ∧
    get_cve sampleRoute (fun _ => none) "CVE-21-12345" =
      get_cve sampleRoute (fun _ => some ⟨"CVE-21-12345", "d", []⟩) "CVE-21-12345" :=
  ⟨(invalid_id_rejected_before_fetch sampleRoute "CVE-21-12345" (by decide)).1 _,
   (invalid_id_rejected_before_fetch sampleRoute "CVE-21-12345" (by decide)).2 _ _⟩

/-- C6, counterexample.  The claim says an invalidly-formatted cve id and a
valid id with absent upstream metadata are distinguishable from the result
alone; in the code both produce the very same value (`None`), as this
concrete pair of calls shows (`"CVE-21-12345"` is malformed,
`"CVE-2021-12345"` is well-formed and its fetch is empty). -/
theorem failure_kinds_not_distinguishable :
    get_cve sampleRoute (fun _ => none) "CVE-21-12345" =
      get_cve sampleRoute (fun _ => none) "CVE-2021-12345" ∧
    get_cve sampleRoute (fun _ => none) "CVE-2021-12345" = GetCveResult.pynone := by
  exact ⟨by decide, by decide⟩

/-- C6, amended.  Both failure conditions — malformed id, and well-formed id
whose upstream fetch is empty — surface as one and the same failure value
(`None`); the caller can tell failure from success but cannot tell the two
failure kinds apart from the result alone. -/
theorem both_failures_surface_as_pynone
    (route : String → String → String → String → String)
    (fetch : String → Option RawCve) (cveId : String) :
    (is_valid_cve_id (pyUpper cveId) = false →
      get_cve route fetch cveId = GetCveResult.pynone) ∧
    (fetch (pyUpper cveId) = none →
      get_cve route fetch cveId = GetCveResult.pynone) := by
  constructor
  · intro h
    simp [get_cve, h]
  · intro h
    unfold get_cve
    simp only [h]
    split <;> rfl

/-- Witness for the amended C6 at concrete inputs: a malformed id and a
well-formed id with an empty fetch both yield `pynone`. -/
theorem both_failures_surface_as_pynone_witness :
    get_cve sampleRoute (fun _ => none) "cve-21-12345" = GetCveResult.pynone ∧
    get_cve sampleRoute (fun _ => none) "CVE-2021-12345" = GetCveResult.pynone :=
  ⟨(both_failures_surface_as_pynone sampleRoute (fun _ => none) "cve-21-12345").1
      (by decide),
   (both_failures_surface_as_pynone sampleRoute (fun _ => none) "CVE-2021-12345").2 rfl⟩

theorem processLinks_spec (route : String → String → String → String → String)
    (cid : String) :
    ∀ (links : List String) (g : List (String × String)) (n : List String),
      processLinks route cid links = some (g, n) →
      g.map Prod.fst = links.filter (fun l => classifiesCommit route cid l) ∧
      n = links.filter (fun l => classifiesOpaque route cid l) ∧
      ∀ l ∈ links, classifiesCommit route cid l = !classifiesOpaque route cid l
  | [], g, n, h => by
    rw [processLinks] at h
    simp only [Option.some_inj, Prod.mk.injEq] at h
    obtain ⟨hg, hn⟩ := h
    subst hg
    subst hn
    simp
  | l :: ls, g, n, h => by
    rcases hc : classify route cid l with _ | lk
    · rw [processLinks, hc] at h
      exact absurd h (by simp)
    · rcases hr : processLinks route cid ls with _ | gn
      · rcases lk with ⟨ou, canon, ro, rn, ch, og⟩ | u <;>
        · rw [processLinks, hc, hr] at h
          exact absurd h (by simp)
      · have ih := processLinks_spec route cid ls gn.1 gn.2 (by rw [hr])
        rcases lk with ⟨ou, canon, ro, rn, ch, og⟩ | u
        · rw [processLinks, hc, hr] at h
          have h2 : (((l, canon) :: gn.1 : List (String × String)), gn.2) = (g, n) := by
            simpa using h
          have hg : (l, canon) :: gn.1 = g := congrArg Prod.fst h2
          have hn : gn.2 = n := congrArg Prod.snd h2
          subst hg
          subst hn
          have hcl : classifiesCommit route cid l = true := by
            simp [classifiesCommit, hc]
          have hop : classifiesOpaque route cid l = false := by
            simp [classifiesOpaque, hc]
          refine ⟨?_, ?_, ?_⟩
          · simp [List.filter_cons, hcl, ih.1]
          · simp [List.filter_cons, hop, ih.2.1]
          · intro x hx
            rcases List.mem_cons.mp hx with hx | hx
            · subst hx
              simp [hcl, hop]
            · exact ih.2.2 x hx
        · rw [processLinks, hc, hr] at h
          have h2 : ((gn.1 : List (String × String)), l :: gn.2) = (g, n) := by
            simpa using h
          have hg : gn.1 = g := congrArg Prod.fst h2
          have hn : l :: gn.2 = n := congrArg Prod.snd h2
          subst hg
          subst hn
          have hcl : classifiesCommit route cid l = false := by
            simp [classifiesCommit, hc]
          have hop : classifiesOpaque route cid l = true := by
            simp [classifiesOpaque, hc]
          refine ⟨?_, ?_, ?_⟩
          · simp [List.filter_cons, hcl, ih.1]
          · simp [List.filter_cons, hop, ih.2.1]
          · intro x hx
            rcases List.mem_cons.mp hx with hx | hx
            · subst hx
              simp [hcl, hop]
            · exact ih.2.2 x hx

/-- C4.  When record building completes, the reference list is partitioned:
the first components of `git_links` are exactly the input links the
classifier recognizes as commit links, in input order and with duplicates
kept, `normal_links` are exactly the opaque ones likewise, and every input
link is counted by exactly one of the two complementary predicates.
(Completion can only fail through the `convert_git_link` `KeyError` defect
recorded for C1.) -/
theorem process_cve_partitions (route : String → String → String → String → String)
    (raw : RawCve) (e : CveEntry) (h : process_cve route raw = some e) :
    e.git_links.map Prod.fst =
      raw.links.filter (fun l => classifiesCommit route raw.id l) ∧
    e.normal_links = raw.links.filter (fun l => classifiesOpaque route raw.id l) ∧
    ∀ l ∈ raw.links, classifiesCommit route raw.id l = !classifiesOpaque route raw.id l := by
  rcases hr : processLinks route raw.id raw.links with _ | gn
  · rw [process_cve, hr] at h
    exact absurd h (by simp)
  · rw [process_cve, hr] at h
    have h2 : (⟨raw.id, raw.desc, gn.1, gn.2⟩ : CveEntry) = e := by simpa using h
    have := processLinks_spec route raw.id raw.links gn.1 gn.2 (by rw [hr])
    rw [← h2]
    exact this

/-- Witness for C4 on `dupRaw`: duplicates and same-commit variants all
kept, in order, on the correct sides. -/
theorem process_cve_partitions_witness :
    dupEntry.git_links.map Prod.fst =
      dupRaw.links.filter (fun l => classifiesCommit sampleRoute dupRaw.id l) ∧
    dupEntry.normal_links =
      dupRaw.links.filter (fun l => classifiesOpaque sampleRoute dupRaw.id l) :=
  ⟨(process_cve_partitions sampleRoute dupRaw dupEntry (by decide)).1,
   (process_cve_partitions sampleRoute dupRaw dupEntry (by decide)).2.1⟩

/-- C9.  Classification is pure and stateless: repeated calls on the same
input yield the same output, and classification inside the record-building
loop carries no state between links — processing a concatenation is the
concatenation of processing the parts (whenever one link aborts, the whole
run aborts, matching the uncaught-exception semantics). -/
theorem classify_pure_and_stateless (route : String → String → String → String → String)
    (cid : String) :
    (∀ url, classify route cid url = classify route cid url) ∧
    ∀ xs ys, processLinks route cid (xs ++ ys) =
      match processLinks route cid xs, processLinks route cid ys with
      | some g, some h => some (g.1 ++ h.1, g.2 ++ h.2)
      | _, _ => none := by
  refine ⟨fun _ => rfl, ?_⟩
  intro xs ys
  induction xs with
  | nil =>
    rcases hy : processLinks route cid ys with _ | g
    · simp [processLinks, hy]
    · simp [processLinks, hy]
  | cons l ls ih =>
    rcases hc : classify route cid l with _ | lk
    · simp [processLinks, hc]
    · rcases lk with ⟨ou, canon, ro, rn, ch, og⟩ | u
      · rw [List.cons_append, processLinks, hc, ih]
        rcases hls : processLinks route cid ls with _ | g <;>
          rcases hys : processLinks route cid ys with _ | h2 <;>
            simp [processLinks, hc, hls, hys]
      · rw [List.cons_append, processLinks, hc, ih]
        rcases hls : processLinks route cid ls with _ | g <;>
          rcases hys : processLinks route cid ys with _ | h2 <;>
            simp [processLinks, hc, hls, hys]

theorem findFocal_of_absent {user : String} :
    ∀ (block : List AnnotationRow), (∀ r ∈ block, r.username ≠ user) →
      findFocal block user = none
  | [], _ => rfl
  | r :: t, h => by
    have hr : r.username ≠ user := h r (List.mem_cons_self r t)
    have ht := findFocal_of_absent t fun d hd => h d (List.mem_cons_of_mem r hd)
    simp [findFocal, hr, ht]

theorem length_filter_map_eq {α β : Type} (g : α → β) (p : β → Bool) :
    ∀ l : List α, ((l.map g).filter p).length = (l.filter fun a => p (g a)).length
  | [] => rfl
  | a :: t => by
    simp only [List.map_cons, List.filter_cons]
    cases hp : p (g a) <;> simp [length_filter_map_eq g p t]

theorem beq_pair (a b : Bool) : ((a, b) == (true, true)) = (a && b) := by
  cases a <;> cases b <;> rfl

/-- C8, counterexample.  The claim says that with no focal entry in the
group no pairwise agreement fields are computed and the percentage is 0.
On this concrete two-entry group, with focal username `"zoe"` absent, the
pipeline of `predict/views.py` still computes an agreement pair for the
second entry (against the group's first entry) and scores the block 100. -/
theorem no_focal_still_scored :
    (processBlock sampleRouteB [rowAlice, rowBob] "zoe").map (fun e => e.agreement) =
      [none, some (true, true)] ∧
    blockPercentage (processBlock sampleRouteB [rowAlice, rowBob] "zoe") = 100 := by
  constructor
  · decide
  · simp +decide [blockPercentage, processBlock, moveUserToFront, findFocal, appendURLs,
      insertAgreements, fixMatches, introMatches, rowAlice, rowBob, List.filter]

/-- C8, amended.  When no entry's username equals the focal username, the
entry order is left unchanged, but the pipeline still takes the group's
first entry as comparison baseline: every other entry receives pairwise
agreement fields computed against that first entry, and the block
percentage is the fraction (×100) of those entries agreeing with it on both
halves (100 for a singleton group) — not 0. -/
theorem no_focal_baseline_is_first_entry
    (routeB : String → String → String → String → String → String)
    (block : List AnnotationRow) (user : String)
    (habs : ∀ r ∈ block, r.username ≠ user) :
    moveUserToFront block user = block ∧
    (processBlock routeB block user).map (fun e => e.row) = block ∧
    ∀ first rest, block = first :: rest →
      (processBlock routeB block user).map (fun e => e.agreement) =
        none :: rest.map (fun r => some (fixMatches r first, introMatches r first)) ∧
      blockPercentage (processBlock routeB block user) =
        (if rest.length = 0 then (100 : ℚ)
         else 100 *
            ((rest.filter fun r => fixMatches r first && introMatches r first).length : ℚ) /
            (rest.length : ℚ)) := by
  have hmv : moveUserToFront block user = block := by
    simp [moveUserToFront, findFocal_of_absent block habs]
  refine ⟨hmv, ?_, ?_⟩
  · cases block with
    | nil => simp [processBlock, moveUserToFront, findFocal]
    | cons f rest =>
      have hpb : processBlock routeB (f :: rest) user =
          appendURLs routeB f ::
            rest.map (fun r => insertAgreements (appendURLs routeB r) f) := by
        rw [processBlock, hmv]
      rw [hpb]
      simp [appendURLs, insertAgreements, List.map_map, Function.comp_def]
  · intro first rest hb
    subst hb
    have hpb : processBlock routeB (first :: rest) user =
        appendURLs routeB first ::
          rest.map (fun r => insertAgreements (appendURLs routeB r) first) := by
      rw [processBlock, hmv]
    rw [hpb]
    have hcomp : (appendURLs routeB first ::
        rest.map (fun r => insertAgreements (appendURLs routeB r) first)).filter
          (fun e => e.agreement.isSome) =
        rest.map (fun r => insertAgreements (appendURLs routeB r) first) := by
      rw [List.filter_cons]
      have h1 : ((appendURLs routeB first).agreement.isSome = true) = False := by
        simp [appendURLs]
      simp only [h1, if_false]
      exact List.filter_eq_self.mpr (by
        intro e he
        rcases List.mem_map.mp he with ⟨r, hr, rfl⟩
        simp [insertAgreements])
    have hms : ((rest.map (fun r => insertAgreements (appendURLs routeB r) first)).filter
        (fun e => e.agreement == some (true, true))).length =
        (rest.filter fun r => fixMatches r first && introMatches r first).length := by
      rw [length_filter_map_eq]
      congr 1
      apply List.filter_congr
      intro r hr
      simp [insertAgreements, appendURLs, beq_pair]
    constructor
    · simp [appendURLs, insertAgreements, List.map_map, Function.comp_def]
    · rw [blockPercentage, hcomp, List.length_map, hms]

/-- Witness for the amended C8 on the concrete group `[rowAlice, rowBob]`
with absent focal username `"zoe"`. -/
theorem no_focal_baseline_is_first_entry_witness :
    moveUserToFront [rowAlice, rowBob] "zoe" = [rowAlice, rowBob] ∧
    blockPercentage (processBlock sampleRouteB [rowAlice, rowBob] "zoe") =
      (if ([rowBob] : List AnnotationRow).length = 0 then (100 : ℚ)
       else 100 *
          ((([rowBob] : List AnnotationRow).filter
            fun r => fixMatches r rowAlice && introMatches r rowAlice).length : ℚ) /
          (([rowBob] : List AnnotationRow).length : ℚ)) :=
  ⟨(no_focal_baseline_is_first_entry sampleRouteB [rowAlice, rowBob] "zoe" (by decide)).1,
   ((no_focal_baseline_is_first_entry sampleRouteB [rowAlice, rowBob] "zoe"
      (by decide)).2.2 rowAlice [rowBob] rfl).2⟩

/-- C7.  Identifier validation: `"CVE-2021-12345"` is valid,
`"CVE-21-12345"` is not; ids are uppercased before validation, so the
lowercase `"cve-2021-12345"` uppercases to `"CVE-2021-12345"` and then
validates, and `get_cve` on the lowercase id proceeds past validation
(reaching the fetch) exactly as on the uppercase id. -/
theorem cve_id_validation_examples :
    is_valid_cve_id "CVE-2021-12345" = true ∧
    is_valid_cve_id "CVE-21-12345" = false ∧
    pyUpper "cve-2021-12345" = "CVE-2021-12345" ∧
    is_valid_cve_id (pyUpper "cve-2021-12345") = true ∧
    get_cve sampleRoute (fun _ => some ⟨"CVE-2021-12345", "d", []⟩) "cve-2021-12345" =
      get_cve sampleRoute (fun _ => some ⟨"CVE-2021-12345", "d", []⟩) "CVE-2021-12345" := by
  refine ⟨by decide, by decide, by decide, by decide, by decide⟩

end Predict
